import Mathlib

/-!
Verification development for the `lightweight-human-pose-estimation-3d` demo
(`lightweight-human-pose-estimation-3d.py`): a shallow embedding of its
preprocessing width arithmetic, FPS smoothing, playback key-handling loop,
per-session state (configured input width and focal length), pose rotation,
axis remap, skeleton edge construction and tensor normalization, together
with theorems settling the specification claims.

Machine floats are modelled by exact rationals `ℚ`; 8-bit pixels and frame
dimensions by `ℕ`; OpenCV key codes by `ℤ` (since `cv2.waitKey` returns `-1`
on timeout).
-/

namespace Pose3dDemo

/-- `IMAGE_HEIGHT = 256` (source line 33): the fixed network input height. -/
def IMAGE_HEIGHT : ℕ := 256

/-- `STRIDE = 8` (source line 36): the network stride driving width alignment. -/
def STRIDE : ℕ := 8

/-! ### Preprocessing width arithmetic (source lines 132-144)

`cv2.resize(frame, dsize=None, fx=s, fy=s)` computes the destination width as
`saturate_cast<int>(src.cols * fx)`, i.e. `cvRound`: round to nearest integer,
ties to even.  We embed that rounding exactly on `ℚ`. -/

/-- Round to nearest integer, ties to even: the rounding performed by OpenCV
when it derives `dsize` from a scale factor. -/
def cvRound (q : ℚ) : ℤ :=
  if q - ⌊q⌋ < 1/2 then ⌊q⌋
  else if 1/2 < q - ⌊q⌋ then ⌊q⌋ + 1
  else if ⌊q⌋ % 2 = 0 then ⌊q⌋ else ⌊q⌋ + 1

/-- `input_scale = IMAGE_HEIGHT / frame.shape[0]` (source line 138). -/
def inputScale (h : ℕ) : ℚ := (IMAGE_HEIGHT : ℚ) / (h : ℚ)

/-- Width of `scaled_img` produced by `cv2.resize(frame, dsize=None,
fx=input_scale, fy=input_scale)` (source lines 139-141). -/
def scaledWidth (h w : ℕ) : ℤ := cvRound ((w : ℚ) * inputScale h)

/-- Width after the stride crop `scaled_img[:, 0:width - width % STRIDE]`
(source lines 143-144). -/
def croppedWidth (h w : ℕ) : ℤ := scaledWidth h w - scaledWidth h w % 8

/-- `IMAGE_WIDTH = int((frame.shape[1] * (IMAGE_HEIGHT / frame.shape[0])) / STRIDE) * STRIDE`
(source lines 133-134): the base width computed from the first frame and passed
to `net.set_input_shape`. -/
def baseWidth (h w : ℕ) : ℤ := ⌊(w : ℚ) * inputScale h / (STRIDE : ℚ)⌋ * 8

/-! ### FPS exponential moving average (source lines 207-210) -/

/-- One update of `mean_time`: `if mean_time == 0: mean_time = current_time
else: mean_time = mean_time * 0.95 + current_time * 0.05`. -/
def emaStep (mean t : ℚ) : ℚ :=
  if mean = 0 then t else mean * 0.95 + t * 0.05

/-- `mean_time` after folding a list of per-frame processing times, starting
from the initialization `mean_time = 0` (source line 117). -/
def emaRun (ts : List ℚ) : ℚ := ts.foldl emaStep 0

/-! ### Playback controller (source lines 219-239)

Key codes: `esc_code = 27`, `p_code = 112`, `space_code = 32`
(source lines 114-116). -/

/-- `esc_code = 27`. -/
def esc_code : ℤ := 27

/-- `p_code = 112`. -/
def p_code : ℤ := 112

/-- `space_code = 32`. -/
def space_code : ℤ := 32

/-- The busy-poll `while` loop of source lines 230-235: keep polling keys
until one of `p_code`, `esc_code`, `space_code` arrives; returns that key, or
`none` when the supplied key stream is exhausted (the real loop would still be
blocking). -/
def rotateLoop : List ℤ → Option ℤ
  | [] => none
  | k :: ks =>
    if k = p_code ∨ k = esc_code ∨ k = space_code then some k else rotateLoop ks

/-- The key handling at the end of one loop iteration (source lines 219-239),
given the `rotate3d` flag, the current `delay`, the key returned by
`cv2.waitKey(delay)` and the stream of keys the inner busy-poll loop would
observe.  Returns `none` when the busy-poll loop never terminates, otherwise
`some (exit, newDelay)` where `exit` records whether `break` was reached. -/
def keyStep (rotate3d : Bool) (delay : ℕ) (key : ℤ) (inner : List ℤ) :
    Option (Bool × ℕ) :=
  if key = esc_code then some (true, delay)
  else
    let delay1 := if key = p_code then (if delay = 1 then 0 else 1) else delay
    if delay1 = 0 ∧ rotate3d then
      match rotateLoop inner with
      | none => none
      | some k => if k = esc_code then some (true, 0) else some (false, 1)
    else some (false, delay1)

/-- State of the playback loop between iterations: the current `delay`, the
number of frames fetched from the frame provider so far, and whether the loop
has been terminated by `break`. -/
structure LoopState where
  delay : ℕ
  frames : ℕ
  stopped : Bool
  deriving DecidableEq, Repr

/-- One full iteration of the `for frame_id, frame in enumerate(frame_provider)`
loop (source lines 127-239): a non-stopped loop fetches the next frame,
processes and displays it, then runs the key handling of `keyStep`.  `none`
models an iteration that never completes (busy-poll without a terminating
key). -/
def loopIter (rotate3d : Bool) (s : LoopState) (key : ℤ) (inner : List ℤ) :
    Option LoopState :=
  if s.stopped then some s
  else
    match keyStep rotate3d s.delay key inner with
    | none => none
    | some (ex, d) => some ⟨d, s.frames + 1, ex⟩

/-! ### Per-session state: configured width and focal length
(source lines 112-147) -/

/-- Mutable session variables of `main`: the configured `IMAGE_WIDTH`
(initially the constant 448, source line 34), the `base_width_calculated`
flag (source line 119), the focal length `fx` (initialized to `-1`, source
line 112), plus the record of widths passed to `net.set_input_shape` and of
values assigned to `fx`. -/
structure SessionState where
  imageWidth : ℤ
  baseCalculated : Bool
  fx : ℚ
  configs : List ℤ
  fxSets : List ℚ
  deriving DecidableEq, Repr

/-- The session state before the first frame. -/
def initSession : SessionState :=
  { imageWidth := 448, baseCalculated := false, fx := -1,
    configs := [], fxSets := [] }

/-- Per-frame data the loop body derives for a frame of height `h` and width
`w`: the width of the normalized tensor handed to the engine, and the focal
length handed to `parse_poses`. -/
structure FrameResult where
  tensorWidth : ℤ
  fxUsed : ℚ
  deriving DecidableEq, Repr

/-- The guard of source lines 132-136: on the first frame only (while
`base_width_calculated` is false), compute the base width and record the
single `net.set_input_shape` call. -/
def stepBase (s : SessionState) (f : ℕ × ℕ) : SessionState :=
  if s.baseCalculated = false then
    { s with imageWidth := baseWidth f.1 f.2, baseCalculated := true,
             configs := s.configs ++ [baseWidth f.1 f.2] }
  else s

/-- The guard of source lines 146-147: while `fx < 0` (focal length unknown),
set `fx = 0.8 * frame.shape[1]` and record the assignment. -/
def stepFx (s : SessionState) (f : ℕ × ℕ) : SessionState :=
  if s.fx < 0 then
    { s with fx := 0.8 * (f.2 : ℚ), fxSets := s.fxSets ++ [0.8 * (f.2 : ℚ)] }
  else s

/-- One loop body pass over a frame `(h, w)` (source lines 132-152 and
177-183): run the two first-frame guards; the frame's own tensor width is its
stride-cropped scaled width, and the current `fx` is handed to
`parse_poses`. -/
def stepFrame (s : SessionState) (f : ℕ × ℕ) : SessionState × FrameResult :=
  (stepFx (stepBase s f) f,
   { tensorWidth := croppedWidth f.1 f.2, fxUsed := (stepFx (stepBase s f) f).fx })

/-- Run the loop body over a list of frames (height, width), threading the
session state and collecting the per-frame results in order. -/
def runFrames : SessionState → List (ℕ × ℕ) → SessionState × List FrameResult
  | s, [] => (s, [])
  | s, f :: fs =>
    ((runFrames (stepFrame s f).1 fs).1,
     (stepFrame s f).2 :: (runFrames (stepFrame s f).1 fs).2)

/-! ### 3D poses: rotation, axis remap, skeleton edges
(source lines 74-81 and 184-198)

A 3D pose is a flattened vector of 76 rationals: 19 keypoints times
(x, y, z, confidence).  The numpy `reshape((-1, 4))` view reads entry
`(k, c)` at flat offset `4*k + c`. -/

/-- Entry `(k, c)` of the `reshape((-1, 4))` view of a flattened pose:
keypoint `k < 19`, component `c < 4` (out-of-range indices read as 0). -/
def poseAt (p : Fin 76 → ℚ) (k c : ℕ) : ℚ :=
  if h : 4 * k + c < 76 then p ⟨4 * k + c, h⟩ else 0

/-- The all-zero pose, used as the `List.getD` default. -/
def zeroPose : Fin 76 → ℚ := fun _ => 0

/-- `np.linalg.inv` on a 3×3 rational matrix: the genuine inverse
`det⁻¹ • adjugate` (meaningful when the determinant is nonzero). -/
def matInv (A : Matrix (Fin 3) (Fin 3) ℚ) : Matrix (Fin 3) (Fin 3) ℚ :=
  A.det⁻¹ • A.adjugate

/-- The body of `rotate_poses` for one pose (source lines 77-79): the pose is
viewed as a 4×19 matrix (`reshape((-1, 4)).transpose()`); its first three
rows become `np.dot(R_inv, rows − t)` with `t` broadcast per column, the
fourth row (confidence) is untouched, and the result is flattened back. -/
def rotatePose (R : Matrix (Fin 3) (Fin 3) ℚ) (t : Fin 3 → ℚ)
    (p : Fin 76 → ℚ) : Fin 76 → ℚ := fun i =>
  if hc : (i : ℕ) % 4 < 3 then
    (matInv R).mulVec
      (fun j => poseAt p ((i : ℕ) / 4) (j : ℕ) - t j) ⟨(i : ℕ) % 4, hc⟩
  else p i

/-- `rotate_poses(poses_3d, R, t)` (source lines 74-81): every detected
pose is rotated in place. -/
def rotate_poses (poses_3d : List (Fin 76 → ℚ)) (R : Matrix (Fin 3) (Fin 3) ℚ)
    (t : Fin 3 → ℚ) : List (Fin 76 → ℚ) :=
  poses_3d.map (rotatePose R t)

/-- The axis remap of source lines 187-191: with `x = poses[:, 0::4]`,
`y = poses[:, 1::4]`, `z = poses[:, 2::4]` read from a copy, assign
`poses[:, 0::4], poses[:, 1::4], poses[:, 2::4] = -z, x, -y`. -/
def remapPose (p : Fin 76 → ℚ) : Fin 76 → ℚ := fun i =>
  if (i : ℕ) % 4 = 0 then
    -(p ⟨4 * ((i : ℕ) / 4) + 2, by have := i.isLt; omega⟩)
  else if (i : ℕ) % 4 = 1 then
    p ⟨4 * ((i : ℕ) / 4), by have := i.isLt; omega⟩
  else if (i : ℕ) % 4 = 2 then
    -(p ⟨4 * ((i : ℕ) / 4) + 1, by have := i.isLt; omega⟩)
  else p i

/-- The axis remap applied to every detected person. -/
def remapPoses (poses : List (Fin 76 → ℚ)) : List (Fin 76 → ℚ) :=
  poses.map remapPose

/-- The signed permutation matrix carrying `(x, y, z)` to `(−z, x, −y)`. -/
def remapMatrix : Matrix (Fin 3) (Fin 3) ℚ :=
  Matrix.of ![![0, 0, -1], ![1, 0, 0], ![0, -1, 0]]

/-- `poses_3d.reshape(n, 19, -1)[:, :, 0:3]` (source line 193): keep only
(x, y, z) of every keypoint. -/
def dropConfidence (poses : List (Fin 76 → ℚ)) : List (Fin 19 → Fin 3 → ℚ) :=
  poses.map fun p k c => poseAt p (k : ℕ) (c : ℕ)

/-- The flattened edge list of source lines 194-197:
`(SKELETON_EDGES + 19 * np.arange(n).reshape(-1, 1, 1)).reshape(-1, 2)` —
the K-edge template replicated per person with `19 * personIndex` added to
every index, person-major. -/
def buildEdges (template : List (ℕ × ℕ)) (n : ℕ) : List (ℕ × ℕ) :=
  (List.range n).flatMap fun i => template.map fun e => (e.1 + 19 * i, e.2 + 19 * i)

/-- Modelled from the spec: `Plotter3d.plot` lives in `modules/draw.py`, which
is not part of the visible source.  Per the Data Model, the renderer consumes
a flattened multi-person keypoint buffer under the invariant that every edge
index is below `19 × numPeople`; drawing itself always completes.  We model
it as failing exactly when that index invariant is violated. -/
def plot (poses : List (Fin 19 → Fin 3 → ℚ)) (edges : List (ℕ × ℕ)) :
    Option Unit :=
  if edges.all fun e =>
      decide (e.1 < 19 * poses.length) && decide (e.2 < 19 * poses.length) then
    some ()
  else none

/-- The transform-and-assemble step of source lines 184-198: `edges = []`;
only `if len(poses_3d):` are the rotation, axis remap, confidence drop and
edge-list construction performed (an empty pose array stays empty). -/
def transformAndEdges (R : Matrix (Fin 3) (Fin 3) ℚ) (t : Fin 3 → ℚ)
    (template : List (ℕ × ℕ)) (poses_3d : List (Fin 76 → ℚ)) :
    List (Fin 19 → Fin 3 → ℚ) × List (ℕ × ℕ) :=
  if poses_3d.length ≠ 0 then
    (dropConfidence (remapPoses (rotate_poses poses_3d R t)),
     buildEdges template poses_3d.length)
  else ([], [])

/-! ### Tensor normalization (source lines 118 and 149-152)

A frame is a row-major H×W×3 array of 8-bit samples; the preprocessor
computes `(scaled_img.astype(float32) - img_mean) / 255.0` with
`img_mean = [128, 128, 128]`, transposes `(2, 0, 1)` to channel-major and
prepends a batch axis, producing shape `(1, 3, H, W)`. -/

/-- `(img - 128) / 255` applied elementwise to the flattened frame. -/
def normalizeList (a : List ℕ) : List ℚ :=
  a.map fun v : ℕ => ((v : ℚ) - 128) / 255

/-- `np.transpose(a, (2, 0, 1))` on a flat row-major H×W×3 array: the output
entry at flat offset `c*(H*W) + i*W + j` (row-major in shape `(3, H, W)`) is
the input entry at flat offset `(i*W + j)*3 + c`. -/
def transpose201 (H W : ℕ) (a : List ℚ) : List ℚ :=
  (List.range (3 * (H * W))).map fun idx =>
    a.getD ((idx % (H * W)) * 3 + idx / (H * W)) 0

/-- The full normalization of source lines 149-152 on a flat H×W×3 frame:
subtract the mean, scale by 255, transpose to channel-major.  The
`np.expand_dims(·, axis=0)` only prepends a batch axis of size 1 and leaves
the flat data unchanged, giving shape `(1, 3, H, W)`. -/
def preprocessFrame (H W : ℕ) (img : List ℕ) : List ℚ :=
  transpose201 H W (normalizeList img)

/-! ## Theorems -/

/-! ### Width alignment (claim C3) -/

lemma cvRound_le (q : ℚ) : (cvRound q : ℚ) ≤ q + 1/2 := by
  have hfl := Int.floor_le q
  unfold cvRound
  split_ifs with h1 h2 h3
  · linarith
  · push_cast; linarith
  · linarith
  · push_cast
    linarith [not_lt.mp h1]

lemma croppedWidth_eq (h w : ℕ) : croppedWidth h w = 8 * (scaledWidth h w / 8) := by
  unfold croppedWidth
  rw [Int.emod_def]
  ring

/-- Claim C3 as stated: for positive frame dimensions the cropped width is a
multiple of the stride 8 and at most the naively scaled width
`w * IMAGE_HEIGHT / h`. -/
def C3_claim : Prop := ∀ h w : ℕ, 0 < h → 0 < w →
  (8 : ℤ) ∣ croppedWidth h w ∧
  (croppedWidth h w : ℚ) ≤ (w : ℚ) * 256 / (h : ℚ)

/-- C3 fails as stated: a 512×895 frame scales to the non-integer width
447.5, which `cv2.resize` rounds up to 448; the stride crop keeps 448, which
exceeds the naively scaled width 447.5. -/
theorem C3_counterexample : ¬ C3_claim := by
  intro hc
  have h2 := (hc 512 895 (by norm_num) (by norm_num)).2
  have hq : ((895 : ℕ) : ℚ) * inputScale 512 = 895 / 2 := by
    norm_num [inputScale, IMAGE_HEIGHT]
  have hfl : ⌊(895 : ℚ) / 2⌋ = 447 := by norm_num
  have hs : scaledWidth 512 895 = 448 := by
    unfold scaledWidth cvRound
    rw [hq, hfl]
    norm_num
  have hcw : croppedWidth 512 895 = 448 := by
    unfold croppedWidth
    rw [hs]
    norm_num
  rw [hcw] at h2
  push_cast at h2
  norm_num at h2

/-- C3 (amended): for every frame with positive height and width, the
preprocessed width is an exact multiple of the stride 8 and never exceeds the
resized width (the frame is cropped down, never padded); since `cv2.resize`
rounds the scaled width to the nearest integer, the cropped width is bounded
by the naively scaled width plus the rounding slack 1/2 (rather than by the
naively scaled width itself). -/
theorem C3_width_amended (h w : ℕ) (hh : 0 < h) (hw : 0 < w) :
    (8 : ℤ) ∣ croppedWidth h w ∧
    croppedWidth h w ≤ scaledWidth h w ∧
    (croppedWidth h w : ℚ) ≤ (w : ℚ) * 256 / (h : ℚ) + 1 / 2 := by
  refine ⟨⟨scaledWidth h w / 8, croppedWidth_eq h w⟩, ?_, ?_⟩
  · exact sub_le_self _ (Int.emod_nonneg _ (by norm_num))
  · have h1 : (croppedWidth h w : ℚ) ≤ (scaledWidth h w : ℚ) := by
      exact_mod_cast sub_le_self _ (Int.emod_nonneg (scaledWidth h w) (by norm_num))
    have h2 : (scaledWidth h w : ℚ) ≤ (w : ℚ) * inputScale h + 1 / 2 := cvRound_le _
    have h3 : (w : ℚ) * inputScale h = (w : ℚ) * 256 / (h : ℚ) := by
      unfold inputScale IMAGE_HEIGHT
      push_cast
      ring
    linarith

/-- Witness for C3 (amended) at a 256×448 frame. -/
theorem C3_width_amended_witness :
    (8 : ℤ) ∣ croppedWidth 256 448 ∧
    croppedWidth 256 448 ≤ scaledWidth 256 448 ∧
    (croppedWidth 256 448 : ℚ) ≤ ((448 : ℕ) : ℚ) * 256 / ((256 : ℕ) : ℚ) + 1 / 2 :=
  C3_width_amended 256 448 (by norm_num) (by norm_num)

/-! ### FPS exponential moving average (claim C4) -/

lemma emaFold_pos (ts : List ℚ) : ∀ m : ℚ, 0 < m → (∀ x ∈ ts, 0 < x) →
    0 < ts.foldl emaStep m := by
  induction ts with
  | nil => intro m hm _; exact hm
  | cons a l ih =>
    intro m hm hpos
    have ha : 0 < a := hpos a (by simp)
    have hstep : 0 < emaStep m a := by
      unfold emaStep
      rw [if_neg (ne_of_gt hm)]
      nlinarith
    exact ih (emaStep m a) hstep fun x hx => hpos x (by simp [hx])

lemma emaRun_pos (ts : List ℚ) (hne : ts ≠ []) (hpos : ∀ x ∈ ts, 0 < x) :
    0 < emaRun ts := by
  match ts, hne with
  | a :: l, _ =>
    have ha : 0 < a := hpos a (by simp)
    have h0 : emaStep 0 a = a := by unfold emaStep; simp
    unfold emaRun
    rw [List.foldl_cons, h0]
    exact emaFold_pos l a ha fun x hx => hpos x (by simp [hx])

/-- C4: for every sequence of positive per-frame processing times, the
smoothed estimate after the first sample equals that sample exactly, and
appending a further sample `t` to a non-empty history updates the estimate to
`0.95 * previous + 0.05 * t`. -/
theorem C4_fps_ema (ts : List ℚ) (t : ℚ) (hts : ∀ x ∈ ts, 0 < x) (ht : 0 < t) :
    emaRun [t] = t ∧
    emaRun (ts ++ [t]) =
      if ts = [] then t else emaRun ts * 0.95 + t * 0.05 := by
  have hfirst : emaRun [t] = t := by
    unfold emaRun
    simp [emaStep]
  refine ⟨hfirst, ?_⟩
  by_cases hne : ts = []
  · subst hne
    simpa using hfirst
  · rw [if_neg hne]
    have hpos := emaRun_pos ts hne hts
    unfold emaRun
    rw [List.foldl_append]
    show emaStep (emaRun ts) t = emaRun ts * 0.95 + t * 0.05
    unfold emaStep
    rw [if_neg (ne_of_gt hpos)]

/-- Witness for C4 on the history `[1, 2]` and new sample `3`. -/
theorem C4_fps_ema_witness :
    emaRun [(3 : ℚ)] = 3 ∧
    emaRun ([(1 : ℚ), 2] ++ [3]) =
      if ([(1 : ℚ), 2] : List ℚ) = [] then 3 else emaRun [(1 : ℚ), 2] * 0.95 + 3 * 0.05 :=
  C4_fps_ema [1, 2] 3 (by norm_num) (by norm_num)

/-! ### Playback controller in the FROZEN state (claim C1) -/

/-- Claim C1 as stated: from a live FROZEN state (`delay = 0`), a keypress
other than escape, `p` and space leaves the loop state unchanged (in
particular no new frame is fetched), and whenever an iteration ends back in
RUNNING (`delay = 1`), the key pressed was the pause key. -/
def C1_claim : Prop :=
  ∀ (r3 : Bool) (s : LoopState) (key : ℤ) (inner : List ℤ),
    s.stopped = false → s.delay = 0 →
    ((key ≠ esc_code ∧ key ≠ p_code ∧ key ≠ space_code) →
        loopIter r3 s key inner = some s) ∧
    (∀ s2, loopIter r3 s key inner = some s2 →
        s2.stopped = false → s2.delay = 1 → key = p_code)

/-- C1 fails as stated: with `rotate3d` disabled, pressing key 97 (`a`) while
FROZEN lets the `for` loop advance and fetch a new frame (the frame counter
grows from 0 to 1), instead of leaving the state unchanged. -/
theorem C1_counterexample : ¬ C1_claim := by
  intro hc
  have h1 := (hc false ⟨0, 0, false⟩ 97 [] rfl rfl).1 (by decide)
  exact absurd h1 (by decide)

/-- C1 (amended): from a live FROZEN state, every completed iteration fetches
exactly one new frame.  With `rotate3d` disabled, escape terminates, `p`
resumes RUNNING, and every other keypress (space included) is otherwise
ignored but lets the loop fetch and process the next frame with the delay
still 0.  With `rotate3d` enabled, an unhandled outer key sends the loop
into the busy-poll, which skips every key other than escape, `p` and space
without fetching further frames, terminates on escape, and resumes RUNNING
on `p` or on space alike. -/
theorem C1_frozen_amended (s : LoopState) (key : ℤ) (inner : List ℤ)
    (hs : s.stopped = false) (hd : s.delay = 0) :
    (key ≠ esc_code → key ≠ p_code →
        loopIter false s key inner = some ⟨0, s.frames + 1, false⟩) ∧
    (∀ r3, loopIter r3 s esc_code inner = some ⟨0, s.frames + 1, true⟩) ∧
    (∀ r3, loopIter r3 s p_code inner = some ⟨1, s.frames + 1, false⟩) ∧
    (key ≠ esc_code → key ≠ p_code →
        loopIter true s key inner =
          (rotateLoop inner).map fun k =>
            if k = esc_code then ⟨0, s.frames + 1, true⟩
            else ⟨1, s.frames + 1, false⟩) ∧
    (∀ pre post : List ℤ,
        (∀ k ∈ pre, k ≠ p_code ∧ k ≠ esc_code ∧ k ≠ space_code) →
        rotateLoop (pre ++ post) = rotateLoop post) ∧
    (∀ k, rotateLoop inner = some k →
        k = p_code ∨ k = esc_code ∨ k = space_code) := by
  refine ⟨?_, ?_, ?_, ?_, ?_, ?_⟩
  · intro hke hkp
    unfold loopIter keyStep
    rw [hs, hd]
    simp [hke, hkp]
  · intro r3
    unfold loopIter keyStep
    rw [hs, hd]
    simp [esc_code]
  · intro r3
    unfold loopIter keyStep
    rw [hs, hd]
    simp [p_code, esc_code]
  · intro hke hkp
    unfold loopIter keyStep
    rw [hs, hd]
    simp only [if_neg hke, if_neg hkp, Bool.true_and, if_pos rfl]
    cases hrl : rotateLoop inner with
    | none => simp [hrl]
    | some k =>
      by_cases hk : k = esc_code <;> simp [hrl, hk]
  · intro pre post hpre
    induction pre with
    | nil => simp
    | cons a l ih =>
      have ha := hpre a (by simp)
      rw [List.cons_append,
          show rotateLoop (a :: (l ++ post)) = rotateLoop (l ++ post) from by
            conv_lhs => unfold rotateLoop
            rw [if_neg (by tauto)]]
      exact ih fun k hk => hpre k (by simp [hk])
  · intro k
    induction inner with
    | nil => intro h; simp [rotateLoop] at h
    | cons a l ih =>
      intro h
      unfold rotateLoop at h
      by_cases hcase : a = p_code ∨ a = esc_code ∨ a = space_code
      · rw [if_pos hcase] at h
        cases h
        exact hcase
      · rw [if_neg hcase] at h
        exact ih h

/-- Witness for C1 (amended): a FROZEN state with 5 frames fetched; key 97
advances and fetches frame 6 when `rotate3d` is off, and with `rotate3d` on
the busy-poll skips an unknown key and resumes RUNNING on space. -/
theorem C1_frozen_amended_witness :
    loopIter false ⟨0, 5, false⟩ 97 [] = some ⟨0, 6, false⟩ ∧
    loopIter true ⟨0, 5, false⟩ 97 [5, 32] = some ⟨1, 6, false⟩ := by
  have h1 := C1_frozen_amended ⟨0, 5, false⟩ 97 [] rfl rfl
  have h2 := C1_frozen_amended ⟨0, 5, false⟩ 97 [5, 32] rfl rfl
  refine ⟨h1.1 (by decide) (by decide), ?_⟩
  have h3 := h2.2.2.2.1 (by decide) (by decide)
  rw [h3]
  decide

/-! ### First-frame width configuration (claim C2) and focal length (claim C10) -/

lemma stepBase_steady (s : SessionState) (f : ℕ × ℕ)
    (hb : s.baseCalculated = true) : stepBase s f = s := by
  unfold stepBase
  rw [hb]
  simp

lemma stepFx_steady (s : SessionState) (f : ℕ × ℕ) (hfx : 0 ≤ s.fx) :
    stepFx s f = s := by
  unfold stepFx
  rw [if_neg (not_lt.mpr hfx)]

lemma stepFrame_steady (s : SessionState) (f : ℕ × ℕ)
    (hb : s.baseCalculated = true) (hfx : 0 ≤ s.fx) :
    stepFrame s f = (s, { tensorWidth := croppedWidth f.1 f.2, fxUsed := s.fx }) := by
  unfold stepFrame
  rw [stepBase_steady s f hb, stepFx_steady s f hfx]

lemma runFrames_steady (fs : List (ℕ × ℕ)) : ∀ s : SessionState,
    s.baseCalculated = true → 0 ≤ s.fx →
    runFrames s fs =
      (s, fs.map fun f => { tensorWidth := croppedWidth f.1 f.2, fxUsed := s.fx }) := by
  induction fs with
  | nil => intro s _ _; rfl
  | cons f fs ih =>
    intro s hb hfx
    unfold runFrames
    rw [stepFrame_steady s f hb hfx]
    simp only
    rw [ih s hb hfx]
    simp

lemma stepFrame_first (h w : ℕ) :
    stepFrame initSession (h, w) =
      ({ imageWidth := baseWidth h w, baseCalculated := true, fx := 0.8 * (w : ℚ),
         configs := [baseWidth h w], fxSets := [0.8 * (w : ℚ)] },
       { tensorWidth := croppedWidth h w, fxUsed := 0.8 * (w : ℚ) }) := by
  have hb : stepBase initSession (h, w) =
      { imageWidth := baseWidth h w, baseCalculated := true, fx := -1,
        configs := [baseWidth h w], fxSets := [] } := by
    unfold stepBase initSession
    norm_num
  have hf : stepFx
      { imageWidth := baseWidth h w, baseCalculated := true, fx := -1,
        configs := [baseWidth h w], fxSets := ([] : List ℚ) } (h, w) =
      { imageWidth := baseWidth h w, baseCalculated := true, fx := 0.8 * (w : ℚ),
        configs := [baseWidth h w], fxSets := [0.8 * (w : ℚ)] } := by
    unfold stepFx
    norm_num
  unfold stepFrame
  rw [hb, hf]

lemma runFrames_first (h w : ℕ) (rest : List (ℕ × ℕ)) :
    runFrames initSession ((h, w) :: rest) =
      ({ imageWidth := baseWidth h w, baseCalculated := true, fx := 0.8 * (w : ℚ),
         configs := [baseWidth h w], fxSets := [0.8 * (w : ℚ)] },
       { tensorWidth := croppedWidth h w, fxUsed := 0.8 * (w : ℚ) } ::
         rest.map fun f =>
           { tensorWidth := croppedWidth f.1 f.2, fxUsed := 0.8 * (w : ℚ) }) := by
  unfold runFrames
  rw [stepFrame_first h w]
  simp only
  rw [runFrames_steady rest _ rfl (by positivity)]

/-- Claim C2 as stated: the base width is computed from the first frame and
configured exactly once, and every frame's preprocessed tensor has exactly
that width. -/
def C2_claim : Prop :=
  ∀ (h w : ℕ) (rest : List (ℕ × ℕ)), 0 < h → 0 < w →
    (∀ f ∈ rest, 0 < f.1 ∧ 0 < f.2) →
    (runFrames initSession ((h, w) :: rest)).1.configs = [baseWidth h w] ∧
    ∀ r ∈ (runFrames initSession ((h, w) :: rest)).2,
      r.tensorWidth = baseWidth h w

/-- C2 fails as stated: after a first 256×448 frame configures the width 448,
a second 256×320 frame is preprocessed at its own cropped width 320, not at
the configured 448. -/
theorem C2_counterexample : ¬ C2_claim := by
  intro hc
  have h2 := (hc 256 448 [(256, 320)] (by norm_num) (by norm_num)
      (by intro f hf; simp only [List.mem_singleton] at hf; subst hf
          exact ⟨by norm_num, by norm_num⟩)).2
  have hmem :
      ({ tensorWidth := croppedWidth 256 320,
         fxUsed := 0.8 * ((448 : ℕ) : ℚ) } : FrameResult) ∈
      (runFrames initSession ((256, 448) :: [(256, 320)])).2 := by
    rw [runFrames_first]
    simp
  have hmem2 := h2 _ hmem
  simp only at hmem2
  have hcw : croppedWidth 256 320 = 320 := by
    have hq : ((320 : ℕ) : ℚ) * inputScale 256 = 320 := by
      norm_num [inputScale, IMAGE_HEIGHT]
    have hs : scaledWidth 256 320 = 320 := by
      unfold scaledWidth cvRound
      rw [hq]
      norm_num
    unfold croppedWidth
    rw [hs]
    norm_num
  have hbw : baseWidth 256 448 = 448 := by
    have hq : ((448 : ℕ) : ℚ) * inputScale 256 / ((STRIDE : ℕ) : ℚ) = 56 := by
      norm_num [inputScale, IMAGE_HEIGHT, STRIDE]
    unfold baseWidth
    rw [hq]
    norm_num
  rw [hcw, hbw] at hmem2
  norm_num at hmem2

/-- C2 (amended): the base width is computed from the first frame only and
`net.set_input_shape` is called exactly once per run with it; but each
frame's preprocessed tensor keeps that frame's own stride-cropped scaled
width, which need not equal the configured width when aspect ratios
differ. -/
theorem C2_first_frame_amended (h w : ℕ) (rest : List (ℕ × ℕ))
    (hh : 0 < h) (hw : 0 < w) :
    (runFrames initSession ((h, w) :: rest)).1.configs = [baseWidth h w] ∧
    (runFrames initSession ((h, w) :: rest)).2 =
      { tensorWidth := croppedWidth h w, fxUsed := 0.8 * (w : ℚ) } ::
        rest.map fun f =>
          { tensorWidth := croppedWidth f.1 f.2, fxUsed := 0.8 * (w : ℚ) } := by
  rw [runFrames_first]
  exact ⟨rfl, rfl⟩

/-- Witness for C2 (amended): first frame 256×448, second frame 256×320. -/
theorem C2_first_frame_amended_witness :
    (runFrames initSession ((256, 448) :: [(256, 320)])).1.configs =
      [baseWidth 256 448] ∧
    (runFrames initSession ((256, 448) :: [(256, 320)])).2 =
      { tensorWidth := croppedWidth 256 448, fxUsed := 0.8 * ((448 : ℕ) : ℚ) } ::
        [(256, 320)].map fun f =>
          { tensorWidth := croppedWidth f.1 f.2, fxUsed := 0.8 * ((448 : ℕ) : ℚ) } :=
  C2_first_frame_amended 256 448 [(256, 320)] (by norm_num) (by norm_num)

/-- C10: the focal length is assigned exactly once, on the first frame, as
`0.8 * frame.shape[1]`, and that same value is passed to `parse_poses` for
every frame of the run, whatever the widths of the later frames. -/
theorem C10_focal_length (h w : ℕ) (rest : List (ℕ × ℕ))
    (hh : 0 < h) (hw : 0 < w) :
    (runFrames initSession ((h, w) :: rest)).1.fxSets = [0.8 * (w : ℚ)] ∧
    ∀ r ∈ (runFrames initSession ((h, w) :: rest)).2,
      r.fxUsed = 0.8 * (w : ℚ) := by
  rw [runFrames_first]
  refine ⟨rfl, ?_⟩
  intro r hr
  simp only [List.mem_cons, List.mem_map] at hr
  rcases hr with hr | ⟨f, _, hr⟩
  · rw [hr]
  · rw [← hr]

/-- Witness for C10: first frame 256×448 followed by a 512×895 frame. -/
theorem C10_focal_length_witness :
    (runFrames initSession ((256, 448) :: [(512, 895)])).1.fxSets =
      [0.8 * ((448 : ℕ) : ℚ)] ∧
    ∀ r ∈ (runFrames initSession ((256, 448) :: [(512, 895)])).2,
      r.fxUsed = 0.8 * ((448 : ℕ) : ℚ) :=
  C10_focal_length 256 448 [(512, 895)] (by norm_num) (by norm_num)

/-! ### Skeleton edge offsets (claim C7) -/

lemma buildEdges_length (template : List (ℕ × ℕ)) :
    ∀ n, (buildEdges template n).length = n * template.length := by
  intro n
  induction n with
  | zero => simp [buildEdges]
  | succ n ih =>
    unfold buildEdges at ih ⊢
    rw [List.range_succ, List.flatMap_append, List.length_append, ih,
        List.flatMap_cons, List.flatMap_nil, List.append_nil, List.length_map]
    ring

lemma buildEdges_add (template : List (ℕ × ℕ)) (a b : ℕ) :
    buildEdges template (a + b) =
      buildEdges template a ++
        ((List.range b).flatMap fun j =>
          template.map fun e => (e.1 + 19 * (a + j), e.2 + 19 * (a + j))) := by
  unfold buildEdges
  rw [List.range_add, List.flatMap_append, List.flatMap_map]

/-- C7: for at least one detected person and any skeleton template whose
indices are below 19, the flattened edge list has exactly `n * K` entries,
every index in it is below `19 * n`, and the `K`-entry block for person `i`
is exactly the template with `19 * i` added to every index. -/
theorem C7_edge_offsets (template : List (ℕ × ℕ)) (n : ℕ) (hn : 1 ≤ n)
    (htemp : ∀ e ∈ template, e.1 < 19 ∧ e.2 < 19) :
    (buildEdges template n).length = n * template.length ∧
    (∀ e ∈ buildEdges template n, e.1 < 19 * n ∧ e.2 < 19 * n) ∧
    ∀ i, i < n →
      ((buildEdges template n).drop (i * template.length)).take template.length
        = template.map fun e => (e.1 + 19 * i, e.2 + 19 * i) := by
  refine ⟨buildEdges_length template n, ?_, ?_⟩
  · intro e he
    rw [buildEdges, List.mem_flatMap] at he
    obtain ⟨i, hi, he⟩ := he
    rw [List.mem_map] at he
    obtain ⟨a, ha, rfl⟩ := he
    have hde := htemp a ha
    have hin : i < n := List.mem_range.mp hi
    constructor <;> simp only <;> omega
  · intro i hi
    obtain ⟨m, rfl⟩ : ∃ m, n = i + (m + 1) := ⟨n - i - 1, by omega⟩
    rw [buildEdges_add template i (m + 1),
        List.drop_left' (buildEdges_length template i),
        List.range_succ_eq_map, List.flatMap_cons,
        List.take_left' (by rw [List.length_map])]
    simp

/-- Witness for C7: a two-edge template replicated over two people. -/
theorem C7_edge_offsets_witness :
    (buildEdges [(0, 1), (5, 6)] 2).length = 2 * [(0, 1), (5, 6)].length ∧
    (∀ e ∈ buildEdges [(0, 1), (5, 6)] 2, e.1 < 19 * 2 ∧ e.2 < 19 * 2) ∧
    ∀ i, i < 2 →
      ((buildEdges [(0, 1), (5, 6)] 2).drop
          (i * [(0, 1), (5, 6)].length)).take [(0, 1), (5, 6)].length
        = [(0, 1), (5, 6)].map fun e => (e.1 + 19 * i, e.2 + 19 * i) :=
  C7_edge_offsets [(0, 1), (5, 6)] 2 (by norm_num)
    (by intro e he; fin_cases he <;> exact ⟨by norm_num, by norm_num⟩)

/-! ### Tensor layout and normalization (claim C9) -/

lemma twoDimBound {i j H W : ℕ} (hi : i < H) (hj : j < W) :
    i * W + j < H * W := by
  have h1 : i * W + j < (i + 1) * W := by
    have : (i + 1) * W = i * W + W := by ring
    omega
  have h2 : (i + 1) * W ≤ H * W := Nat.mul_le_mul (by omega) (le_refl W)
  omega

lemma getD_map_lt {α β : Type} (f : α → β) (l : List α) (q : ℕ)
    (hq : q < l.length) (d : β) (d0 : α) :
    (l.map f).getD q d = f (l.getD q d0) := by
  rw [List.getD_eq_getElem (l.map f) d (by rw [List.length_map]; exact hq),
      List.getD_eq_getElem l d0 hq, List.getElem_map]

lemma getD_map_range (n : ℕ) (f : ℕ → ℚ) (q : ℕ) (hq : q < n) (d : ℚ) :
    ((List.range n).map f).getD q d = f q := by
  rw [getD_map_lt f (List.range n) q (by rw [List.length_range]; exact hq) d 0,
      List.getD_eq_getElem _ _ (by rw [List.length_range]; exact hq),
      List.getElem_range]

/-- C9: the preprocessed tensor of an H×W frame has flat size `1 * 3 * H * W`
(shape `(1, 3, H, W)` in batch, channel, height, width layout), and its entry
at position `(0, c, i, j)` — flat row-major offset `c*(H*W) + i*W + j` —
equals `(pixel - 128) / 255` for the frame's 8-bit sample at `(i, j, c)`. -/
theorem C9_preprocess (H W : ℕ) (img : List ℕ) (him : img.length = H * W * 3)
    (i j c : ℕ) (hi : i < H) (hj : j < W) (hc : c < 3) :
    (preprocessFrame H W img).length = 1 * (3 * (H * W)) ∧
    (preprocessFrame H W img).getD (c * (H * W) + (i * W + j)) 0
      = ((img.getD ((i * W + j) * 3 + c) 0 : ℚ) - 128) / 255 := by
  have hr : i * W + j < H * W := twoDimBound hi hj
  have hp : c * (H * W) + (i * W + j) < 3 * (H * W) := twoDimBound hc hr
  constructor
  · unfold preprocessFrame transpose201
    rw [List.length_map, List.length_range]
    ring
  · unfold preprocessFrame transpose201
    rw [getD_map_range _ _ _ hp]
    have hmod : (c * (H * W) + (i * W + j)) % (H * W) = i * W + j := by
      rw [Nat.mul_comm c (H * W), Nat.mul_add_mod, Nat.mod_eq_of_lt hr]
    have hdiv : (c * (H * W) + (i * W + j)) / (H * W) = c := by
      rw [Nat.mul_comm c (H * W), Nat.mul_add_div (by omega),
          Nat.div_eq_of_lt hr, Nat.add_zero]
    rw [hmod, hdiv]
    unfold normalizeList
    rw [getD_map_lt _ img _ (by rw [him]; exact twoDimBound hr hc) 0 0]

/-- Witness for C9 on a 1×2 frame, sample `(0, 1)` of channel 2. -/
theorem C9_preprocess_witness :
    (preprocessFrame 1 2 [10, 20, 30, 40, 50, 60]).length = 1 * (3 * (1 * 2)) ∧
    (preprocessFrame 1 2 [10, 20, 30, 40, 50, 60]).getD
        (2 * (1 * 2) + (0 * 2 + 1)) 0
      = (([10, 20, 30, 40, 50, 60].getD ((0 * 2 + 1) * 3 + 2) 0 : ℚ) - 128) / 255 :=
  C9_preprocess 1 2 [10, 20, 30, 40, 50, 60] (by decide) 0 1 2
    (by decide) (by decide) (by decide)

/-! ### Axis remap (claim C6) -/

lemma applyFin76 (p : Fin 76 → ℚ) {a b : ℕ} {ha : a < 76} {hb : b < 76}
    (hab : a = b) : p ⟨a, ha⟩ = p ⟨b, hb⟩ := by subst hab; rfl

lemma remapPose_at0 (p : Fin 76 → ℚ) (k : ℕ) (hk : k < 19) :
    poseAt (remapPose p) k 0 = -(poseAt p k 2) := by
  simp only [poseAt, remapPose]
  rw [dif_pos (show 4 * k + 0 < 76 by omega),
      dif_pos (show 4 * k + 2 < 76 by omega),
      if_pos (show (4 * k + 0) % 4 = 0 by omega)]
  congr 1
  exact applyFin76 p (by omega)

lemma remapPose_at1 (p : Fin 76 → ℚ) (k : ℕ) (hk : k < 19) :
    poseAt (remapPose p) k 1 = poseAt p k 0 := by
  simp only [poseAt, remapPose]
  rw [dif_pos (show 4 * k + 1 < 76 by omega),
      dif_pos (show 4 * k + 0 < 76 by omega),
      if_neg (show ¬ (4 * k + 1) % 4 = 0 by omega),
      if_pos (show (4 * k + 1) % 4 = 1 by omega)]
  exact applyFin76 p (by omega)

lemma remapPose_at2 (p : Fin 76 → ℚ) (k : ℕ) (hk : k < 19) :
    poseAt (remapPose p) k 2 = -(poseAt p k 1) := by
  simp only [poseAt, remapPose]
  rw [dif_pos (show 4 * k + 2 < 76 by omega),
      dif_pos (show 4 * k + 1 < 76 by omega),
      if_neg (show ¬ (4 * k + 2) % 4 = 0 by omega),
      if_neg (show ¬ (4 * k + 2) % 4 = 1 by omega),
      if_pos (show (4 * k + 2) % 4 = 2 by omega)]
  congr 1
  exact applyFin76 p (by omega)

lemma remapPose_at3 (p : Fin 76 → ℚ) (k : ℕ) (hk : k < 19) :
    poseAt (remapPose p) k 3 = poseAt p k 3 := by
  simp only [poseAt, remapPose]
  rw [dif_pos (show 4 * k + 3 < 76 by omega),
      if_neg (show ¬ (4 * k + 3) % 4 = 0 by omega),
      if_neg (show ¬ (4 * k + 3) % 4 = 1 by omega),
      if_neg (show ¬ (4 * k + 3) % 4 = 2 by omega),
      dif_pos (show 4 * k + 3 < 76 by omega)]

lemma remapMatrix_orth : remapMatrix * remapMatrix.transpose = 1 := by
  ext i j
  fin_cases i <;> fin_cases j <;>
    simp [remapMatrix, Matrix.mul_apply, Fin.sum_univ_three, Matrix.transpose,
          Matrix.one_apply, Matrix.vecHead, Matrix.vecTail]

/-- C6: on every detected pose and keypoint, the remap of source lines
187-191 sends rotated coordinates `(x, y, z)` to exactly `(-z, x, -y)`,
leaves confidence unchanged, acts as the fixed signed permutation matrix
`remapMatrix` on the coordinate triple, and that matrix is orthogonal. -/
theorem C6_axis_remap (poses : List (Fin 76 → ℚ)) (i : ℕ)
    (hi : i < poses.length) (k : ℕ) (hk : k < 19) :
    (remapPoses poses).length = poses.length ∧
    poseAt ((remapPoses poses).getD i zeroPose) k 0
      = -(poseAt (poses.getD i zeroPose) k 2) ∧
    poseAt ((remapPoses poses).getD i zeroPose) k 1
      = poseAt (poses.getD i zeroPose) k 0 ∧
    poseAt ((remapPoses poses).getD i zeroPose) k 2
      = -(poseAt (poses.getD i zeroPose) k 1) ∧
    poseAt ((remapPoses poses).getD i zeroPose) k 3
      = poseAt (poses.getD i zeroPose) k 3 ∧
    (∀ c : Fin 3, poseAt ((remapPoses poses).getD i zeroPose) k (c : ℕ)
      = remapMatrix.mulVec
          (fun d : Fin 3 => poseAt (poses.getD i zeroPose) k (d : ℕ)) c) ∧
    remapMatrix * remapMatrix.transpose = 1 := by
  have hmap : (remapPoses poses).getD i zeroPose
      = remapPose (poses.getD i zeroPose) :=
    getD_map_lt remapPose poses i hi zeroPose zeroPose
  rw [hmap]
  set q := poses.getD i zeroPose with hq
  refine ⟨List.length_map poses remapPose, remapPose_at0 q k hk,
    remapPose_at1 q k hk, remapPose_at2 q k hk, remapPose_at3 q k hk,
    ?_, remapMatrix_orth⟩
  intro c
  fin_cases c <;>
    simp [remapMatrix, Matrix.mulVec, Matrix.dotProduct, Fin.sum_univ_three,
          remapPose_at0 q k hk, remapPose_at1 q k hk, remapPose_at2 q k hk]

/-- Witness for C6 on the single pose whose entry at flat index `i` is `i`,
keypoint 2. -/
theorem C6_axis_remap_witness :
    (remapPoses [fun i : Fin 76 => ((i : ℕ) : ℚ)]).length
      = [fun i : Fin 76 => ((i : ℕ) : ℚ)].length ∧
    poseAt ((remapPoses [fun i : Fin 76 => ((i : ℕ) : ℚ)]).getD 0 zeroPose) 2 0
      = -(poseAt ([fun i : Fin 76 => ((i : ℕ) : ℚ)].getD 0 zeroPose) 2 2) ∧
    poseAt ((remapPoses [fun i : Fin 76 => ((i : ℕ) : ℚ)]).getD 0 zeroPose) 2 1
      = poseAt ([fun i : Fin 76 => ((i : ℕ) : ℚ)].getD 0 zeroPose) 2 0 ∧
    poseAt ((remapPoses [fun i : Fin 76 => ((i : ℕ) : ℚ)]).getD 0 zeroPose) 2 2
      = -(poseAt ([fun i : Fin 76 => ((i : ℕ) : ℚ)].getD 0 zeroPose) 2 1) ∧
    poseAt ((remapPoses [fun i : Fin 76 => ((i : ℕ) : ℚ)]).getD 0 zeroPose) 2 3
      = poseAt ([fun i : Fin 76 => ((i : ℕ) : ℚ)].getD 0 zeroPose) 2 3 ∧
    (∀ c : Fin 3,
      poseAt ((remapPoses [fun i : Fin 76 => ((i : ℕ) : ℚ)]).getD 0 zeroPose) 2 (c : ℕ)
        = remapMatrix.mulVec
            (fun d : Fin 3 =>
              poseAt ([fun i : Fin 76 => ((i : ℕ) : ℚ)].getD 0 zeroPose) 2 (d : ℕ)) c) ∧
    remapMatrix * remapMatrix.transpose = 1 :=
  C6_axis_remap [fun i : Fin 76 => ((i : ℕ) : ℚ)] 0 (by simp) 2 (by norm_num)

/-! ### Pose rotation (claim C5) -/

lemma det_ne_of_left_inv {R S : Matrix (Fin 3) (Fin 3) ℚ} (hS : S * R = 1) :
    R.det ≠ 0 := by
  intro h0
  have hd := congrArg Matrix.det hS
  rw [Matrix.det_mul, h0, mul_zero, Matrix.det_one] at hd
  exact zero_ne_one hd

lemma matInv_right (R : Matrix (Fin 3) (Fin 3) ℚ) (hdet : R.det ≠ 0) :
    R * matInv R = 1 := by
  unfold matInv
  rw [Matrix.mul_smul, Matrix.mul_adjugate, smul_smul,
      inv_mul_cancel₀ hdet, one_smul]

lemma matInv_eq_left_inv {R S : Matrix (Fin 3) (Fin 3) ℚ} (hS : S * R = 1) :
    matInv R = S := by
  have hdet := det_ne_of_left_inv hS
  calc matInv R = 1 * matInv R := (one_mul _).symm
  _ = S * R * matInv R := by rw [hS]
  _ = S * (R * matInv R) := Matrix.mul_assoc S R (matInv R)
  _ = S * 1 := by rw [matInv_right R hdet]
  _ = S := mul_one S

lemma rotatePose_coord (R S : Matrix (Fin 3) (Fin 3) ℚ) (t : Fin 3 → ℚ)
    (hS : S * R = 1) (p : Fin 76 → ℚ) (k : ℕ) (hk : k < 19) (c : Fin 3) :
    poseAt (rotatePose R t p) k (c : ℕ)
      = S.mulVec (fun j : Fin 3 => poseAt p k (j : ℕ) - t j) c := by
  have hc := c.isLt
  simp only [poseAt, rotatePose]
  rw [dif_pos (show 4 * k + (c : ℕ) < 76 by omega),
      dif_pos (show (4 * k + (c : ℕ)) % 4 < 3 by omega),
      matInv_eq_left_inv hS]
  have hdiv : (4 * k + (c : ℕ)) / 4 = k := by omega
  have hmod : (4 * k + (c : ℕ)) % 4 = (c : ℕ) := by omega
  simp only [hdiv, hmod, Fin.eta]

lemma rotatePose_conf (R : Matrix (Fin 3) (Fin 3) ℚ) (t : Fin 3 → ℚ)
    (p : Fin 76 → ℚ) (k : ℕ) (hk : k < 19) :
    poseAt (rotatePose R t p) k 3 = poseAt p k 3 := by
  simp only [poseAt, rotatePose]
  rw [dif_pos (show 4 * k + 3 < 76 by omega),
      dif_neg (show ¬ (4 * k + 3) % 4 < 3 by omega),
      dif_pos (show 4 * k + 3 < 76 by omega)]

/-- C5: for a non-empty pose array, a rotation matrix `R` with a left inverse
`S` (equivalently, nonzero determinant) and any translation `t`,
`rotate_poses` keeps the number of poses, sends the coordinate triple of
every keypoint of every pose to `R⁻¹ ⬝ (point − t)` — expressed through the
inverse `S` — and leaves every keypoint's fourth (confidence) component
unchanged. -/
theorem C5_rotate_poses (poses : List (Fin 76 → ℚ))
    (R S : Matrix (Fin 3) (Fin 3) ℚ) (t : Fin 3 → ℚ)
    (hS : S * R = 1) (hne : poses ≠ [])
    (i : ℕ) (hi : i < poses.length) (k : ℕ) (hk : k < 19) :
    (rotate_poses poses R t).length = poses.length ∧
    (∀ c : Fin 3, poseAt ((rotate_poses poses R t).getD i zeroPose) k (c : ℕ)
        = S.mulVec
            (fun j : Fin 3 => poseAt (poses.getD i zeroPose) k (j : ℕ) - t j) c) ∧
    poseAt ((rotate_poses poses R t).getD i zeroPose) k 3
      = poseAt (poses.getD i zeroPose) k 3 := by
  have hmap : (rotate_poses poses R t).getD i zeroPose
      = rotatePose R t (poses.getD i zeroPose) :=
    getD_map_lt (rotatePose R t) poses i hi zeroPose zeroPose
  rw [hmap]
  exact ⟨List.length_map poses (rotatePose R t),
    fun c => rotatePose_coord R S t hS (poses.getD i zeroPose) k hk c,
    rotatePose_conf R t (poses.getD i zeroPose) k hk⟩

/-- Witness for C5: identity extrinsics on the single pose whose entry at
flat index `i` is `i`, keypoint 0. -/
theorem C5_rotate_poses_witness :
    (rotate_poses [fun i : Fin 76 => ((i : ℕ) : ℚ)] 1 fun _ => 1).length
      = [fun i : Fin 76 => ((i : ℕ) : ℚ)].length ∧
    (∀ c : Fin 3,
      poseAt ((rotate_poses [fun i : Fin 76 => ((i : ℕ) : ℚ)] 1
          fun _ => 1).getD 0 zeroPose) 0 (c : ℕ)
        = Matrix.mulVec 1
            (fun j : Fin 3 =>
              poseAt ([fun i : Fin 76 => ((i : ℕ) : ℚ)].getD 0 zeroPose) 0 (j : ℕ)
                - (fun _ : Fin 3 => (1 : ℚ)) j) c) ∧
    poseAt ((rotate_poses [fun i : Fin 76 => ((i : ℕ) : ℚ)] 1
        fun _ => 1).getD 0 zeroPose) 0 3
      = poseAt ([fun i : Fin 76 => ((i : ℕ) : ℚ)].getD 0 zeroPose) 0 3 :=
  C5_rotate_poses [fun i : Fin 76 => ((i : ℕ) : ℚ)] 1 1 (fun _ => 1)
    (one_mul 1) (by simp) 0 (by simp) 0 (by norm_num)

/-! ### Zero detected poses (claim C8) -/

/-- C8: when the pose decoder returns zero 3D poses for a frame, the
transform-and-assemble step is a no-op — no rotation, remap or reshape is
performed and both the keypoint collection and the edge list handed to the
renderer are empty — and the renderer (whose only precondition is that edge
indices stay below `19 × numPeople`) completes without error on the empty
input. -/
theorem C8_empty_poses (R : Matrix (Fin 3) (Fin 3) ℚ) (t : Fin 3 → ℚ)
    (template : List (ℕ × ℕ)) :
    transformAndEdges R t template [] = ([], []) ∧
    plot (transformAndEdges R t template []).1
        (transformAndEdges R t template []).2 = some () := by
  have hte : transformAndEdges R t template [] = ([], []) := by
    unfold transformAndEdges
    simp
  refine ⟨hte, ?_⟩
  rw [hte]
  unfold plot
  simp

end Pose3dDemo
